import Mathlib

/-!
# TM7711 driver (TM7711.c / TM7711.h): shallow embedding

Machine integers are natural numbers with explicit truncation (`% 2^8` for
`uint8_t`, `% 2^32` for `uint32_t`).  An 8-byte buffer is a function from the
eight valid indices to byte values.  The value of a `float` is a rational
number; single-precision rounding is modelled in the integer-to-float cast of
`ConvertRawReadingToSignedFloat` and in `ConvertCmH2OtoKPa`, while
`ConvertRawToCmH2O` is in exact arithmetic.
-/

namespace TM7711

/-! ## Data model -/

/-- An `uint8_t[8]` buffer (`TxData`, `RxData`). -/
abbrev Frame := Fin 8 → Fin 256

/-- Build a buffer from its eight bytes, as a C array initialiser does. -/
def Frame.mk8 (b0 b1 b2 b3 b4 b5 b6 b7 : Fin 256) : Frame := fun i =>
  match i with
  | ⟨0, _⟩ => b0
  | ⟨1, _⟩ => b1
  | ⟨2, _⟩ => b2
  | ⟨3, _⟩ => b3
  | ⟨4, _⟩ => b4
  | ⟨5, _⟩ => b5
  | ⟨6, _⟩ => b6
  | ⟨_ + 7, _⟩ => b7

/-! ## Frame decoder: `ConvertSPItoRawReading` -/

/-- The four `nibble |= (RxData[i] & mask) >> k;` statements of the loop body,
for one byte `b`; `nibble` is an `uint8_t`, so each assignment truncates to
eight bits. -/
def nibbleOf (b : Nat) : Nat :=
  let nibble := 0
  let nibble := (nibble ||| ((b &&& 0b10000000) >>> 4)) % 2 ^ 8
  let nibble := (nibble ||| ((b &&& 0b00100000) >>> 3)) % 2 ^ 8
  let nibble := (nibble ||| ((b &&& 0b00001000) >>> 2)) % 2 ^ 8
  let nibble := (nibble ||| ((b &&& 0b00000010) >>> 1)) % 2 ^ 8
  nibble

/-- One iteration of `for (int i = 0; i < 8; i++)`: for `1 ≤ i ≤ 6` the nibble
of `RxData[i]` is shifted by `(6 - i) * 4` as an `uint32_t` and or-ed into
`result`; for `i = 0` and `i = 7` nothing happens. -/
def loopBody (RxData : Frame) (result : Nat) (i : Nat) : Nat :=
  if h : 1 ≤ i ∧ i ≤ 6 then
    let nibble := nibbleOf (RxData ⟨i, by omega⟩).val
    (result ||| (nibble <<< ((6 - i) * 4)) % 2 ^ 32) % 2 ^ 32
  else
    result

/-- `uint32_t ConvertSPItoRawReading()`, with the global `RxData` it reads as
an argument. -/
def ConvertSPItoRawReading (RxData : Frame) : Nat :=
  (List.range 8).foldl (loopBody RxData) 0

/-! ## Signed converter: `ConvertRawReadingToSignedFloat` -/

/-- Number of low-order bits of `n` that do not fit into the 24-bit significand
of a single-precision float: `0` when `n < 2^24`, otherwise the `e` with
`2^(23+e) ≤ n < 2^(24+e)` (at most `fuel`). -/
def excessBits : Nat → Nat → Nat
  | 0, _ => 0
  | fuel + 1, n => if n < 2 ^ 24 then 0 else excessBits fuel (n / 2) + 1

/-- The cast `(float)u` of an `uint32_t` value `u`: the nearest number with a
24-bit significand, ties to the even significand (IEEE 754 default rounding).
The result of the cast is always an integer, returned here as a natural
number. -/
def floatOfUInt32 (u : Nat) : Nat :=
  let e := excessBits 8 u
  let q := u / 2 ^ e
  let r := u % 2 ^ e
  if 2 * r < 2 ^ e then q * 2 ^ e
  else if 2 ^ e < 2 * r then (q + 1) * 2 ^ e
  else if q % 2 = 0 then q * 2 ^ e
  else (q + 1) * 2 ^ e

/-- `float ConvertRawReadingToSignedFloat(uint32_t raw_reading)`: when bit 23
is set the upper byte is or-ed in, and the `uint32_t` is then cast to
`float`. -/
def ConvertRawReadingToSignedFloat (raw_reading : Nat) : ℚ :=
  let raw_reading :=
    if raw_reading &&& 0x800000 ≠ 0 then (raw_reading ||| 0xFF000000) % 2 ^ 32
    else raw_reading
  (floatOfUInt32 raw_reading : ℚ)

/-! ## Calibration mapper -/

def RAW_READING_1 : ℚ := 1957000

def PRESSURE_READING_1 : ℚ := 1

def RAW_READING_2 : ℚ := 2614400

def PRESSURE_READING_2 : ℚ := 27 / 2

/-- The macro `CALIBRATION_SLOPE`. -/
def CALIBRATION_SLOPE : ℚ :=
  (PRESSURE_READING_2 - PRESSURE_READING_1) / (RAW_READING_2 - RAW_READING_1)

/-- `float ConvertRawToCmH2O(float raw_reading)` with `CALIBRATION_SLOPE`
expanded textually, in exact rational arithmetic (the rounding of the
single-precision operations is not modelled). -/
def ConvertRawToCmH2O (raw_reading : ℚ) : ℚ :=
  (PRESSURE_READING_2 - PRESSURE_READING_1) / (RAW_READING_2 - RAW_READING_1)
    * (raw_reading - RAW_READING_1) + PRESSURE_READING_1

/-- Round to the nearest integer, ties to the even one. -/
def roundHalfEven (y : ℚ) : ℤ :=
  if y - ⌊y⌋ < 1 / 2 then ⌊y⌋
  else if 1 / 2 < y - ⌊y⌋ then ⌊y⌋ + 1
  else if ⌊y⌋ % 2 = 0 then ⌊y⌋
  else ⌊y⌋ + 1

/-- The single-precision (binary32) value nearest to `x`, ties to the even
significand: `x` is rounded to a multiple of `2 ^ (e - 23)`, where `2 ^ e` is
the power of two at or below `|x|`, and `e` is at least `-126` (below that the
spacing is that of the subnormal numbers).  Overflow to infinity, NaN and the
sign of zero are not modelled. -/
def binary32 (x : ℚ) : ℚ :=
  if x = 0 then 0
  else
    let q : ℤ := max (Int.log 2 |x|) (-126) - 23
    (roundHalfEven (x / 2 ^ q) : ℚ) * 2 ^ q

/-- `float ConvertCmH2OtoKPa(float cmh2o)`: the literal `0.0980665f` is the
binary32 value nearest to the decimal, and the product is rounded to
binary32.  The argument is the value of a finite `float`; the constant is
below 1, so the product of a finite `float` with it does not overflow. -/
def ConvertCmH2OtoKPa (cmh2o : ℚ) : ℚ :=
  binary32 (cmh2o * binary32 0.0980665)

/-! ## Acquisition controller -/

def TM7711_DIFF_10_HZ : Nat := 0

def TM7711_TEMP_40_HZ : Nat := 0

def TM7711_DIFF_40_HZ : Nat := 1

/-- The conditional definition of `PRELOAD_INIT` in TM7711.h for given values
of the three mode macros; `none` when the header stops with `#error` (more
than one mode, or no mode, selected). -/
def PRELOAD_INIT_for (diff10 temp40 diff40 : Nat) : Option Frame :=
  if diff10 + temp40 + diff40 > 1 then none
  else if diff10 + temp40 + diff40 = 0 then none
  else if diff10 ≠ 0 then
    some (Frame.mk8 0b00000000 0b10101010 0b10101010 0b10101010
      0b10101010 0b10101010 0b10101010 0b10000000)
  else if temp40 ≠ 0 then
    some (Frame.mk8 0b00000000 0b10101010 0b10101010 0b10101010
      0b10101010 0b10101010 0b10101010 0b10100000)
  else if diff40 ≠ 0 then
    some (Frame.mk8 0b00000000 0b10101010 0b10101010 0b10101010
      0b10101010 0b10101010 0b10101010 0b10101000)
  else none

/-- `PRELOAD_INIT` for the mode macros as they are set in TM7711.h. -/
def PRELOAD_INIT : Frame :=
  (PRELOAD_INIT_for TM7711_DIFF_10_HZ TM7711_TEMP_40_HZ TM7711_DIFF_40_HZ).getD (fun _ => 0)

/-- The HAL enumeration `GPIO_PinState`, the result type of
`HAL_GPIO_ReadPin` (declared in the HAL headers, which TM7711.h includes). -/
inductive GPIO_PinState where
  | GPIO_PIN_RESET
  | GPIO_PIN_SET
  deriving DecidableEq, Repr

/-- The part of the HAL handle `SPI_HandleTypeDef` that the driver reads: the
peripheral the handle belongs to, as its base address. -/
structure SPI_HandleTypeDef where
  Instance : Nat
  deriving DecidableEq, Repr

/-- One call of `HAL_SPI_TransmitReceive_DMA`: the bytes to send and the
`Size` argument. -/
structure Transfer where
  pTxData : Frame
  Size : Nat

/-- The globals of TM7711.c, and the calls of `HAL_SPI_TransmitReceive_DMA`
made so far (oldest first). -/
structure State where
  SPI_Comp_Flag : Nat
  TxData : Frame
  RxData : Frame
  transfers : List Transfer

/-- The globals as their initialisers set them; no transfer has been
requested. -/
def initialState : State :=
  { SPI_Comp_Flag := 0, TxData := PRELOAD_INIT, RxData := fun _ => 0, transfers := [] }

/-- `void HAL_SPI_TxRxCpltCallback(SPI_HandleTypeDef* hspi)`.  `SPI_INSTANCE`
is the macro of TM7711.h (`SPI1`, a peripheral address of the device header). -/
def HAL_SPI_TxRxCpltCallback (SPI_INSTANCE : Nat) (hspi : SPI_HandleTypeDef) (s : State) :
    State :=
  if hspi.Instance = SPI_INSTANCE then { s with SPI_Comp_Flag := 1 } else s

/-- `void TM7711_Read_Raw_DMA(void)`: requests one transfer of `TxData`, of
`sizeof(uint8_t) * 8` bytes. -/
def TM7711_Read_Raw_DMA (s : State) : State :=
  { s with transfers := s.transfers ++ [{ pTxData := s.TxData, Size := 1 * 8 }] }

/-- `void TM7711_Read_Polling(void)`; `DOUT_STATUS` is what
`HAL_GPIO_ReadPin(GPIOA, GPIO_PIN_6)` returns during the call. -/
def TM7711_Read_Polling (DOUT_STATUS : GPIO_PinState) (s : State) : State :=
  if s.SPI_Comp_Flag = 1 ∧ DOUT_STATUS = GPIO_PinState.GPIO_PIN_RESET then
    TM7711_Read_Raw_DMA { s with SPI_Comp_Flag := 0 }
  else
    s

/-- What can happen to the controller: the application polls, or the HAL
delivers a completion callback for some handle. -/
inductive Event where
  | poll (DOUT_STATUS : GPIO_PinState)
  | complete (hspi : SPI_HandleTypeDef)
  deriving DecidableEq, Repr

/-- The state after one event. -/
def step (SPI_INSTANCE : Nat) (s : State) : Event → State
  | Event.poll d => TM7711_Read_Polling d s
  | Event.complete hspi => HAL_SPI_TxRxCpltCallback SPI_INSTANCE hspi s

/-- The state after a finite trace of events. -/
def run (SPI_INSTANCE : Nat) (s : State) (trace : List Event) : State :=
  trace.foldl (step SPI_INSTANCE) s

/-- Event `e`, arriving in state `s`, requests a transfer. -/
def startsTransfer (SPI_INSTANCE : Nat) (s : State) (e : Event) : Prop :=
  (step SPI_INSTANCE s e).transfers.length = s.transfers.length + 1

instance (SPI_INSTANCE : Nat) (s : State) (e : Event) :
    Decidable (startsTransfer SPI_INSTANCE s e) := by
  unfold startsTransfer; infer_instance

/-- Event `e` is a completion callback for the configured SPI instance. -/
def isCompletion (SPI_INSTANCE : Nat) : Event → Bool
  | Event.poll _ => false
  | Event.complete hspi => decide (hspi.Instance = SPI_INSTANCE)

/-! ## Specification-side definitions -/

/-- Bit `k` of `x`, as `0` or `1`. -/
def bitOf (x k : Nat) : Nat := x / 2 ^ k % 2

/-- The nibble of a frame byte in the words of the specification: nibble bit 3
is bit 7 of the byte, bit 2 is bit 5, bit 1 is bit 3 and bit 0 is bit 1. -/
def specNibble (b : Nat) : Nat :=
  8 * bitOf b 7 + 4 * bitOf b 5 + 2 * bitOf b 3 + bitOf b 1

/-- The number of 1-bits of a byte. -/
def onesOfByte (b : Nat) : Nat :=
  bitOf b 7 + bitOf b 6 + bitOf b 5 + bitOf b 4 + bitOf b 3 + bitOf b 2 + bitOf b 1 + bitOf b 0

/-- The clock ticks an outbound frame carries: the number of its 1-bits. -/
def tickCount (f : Frame) : Nat :=
  onesOfByte (f 0).val + onesOfByte (f 1).val + onesOfByte (f 2).val + onesOfByte (f 3).val
    + onesOfByte (f 4).val + onesOfByte (f 5).val + onesOfByte (f 6).val + onesOfByte (f 7).val

/-- The encoder's byte for a nibble `n`: bit 3 of `n` on bit 7, bit 2 on bit 5,
bit 1 on bit 3 and bit 0 on bit 1; all other bits clear. -/
def spreadNibble (n : Nat) : Fin 256 :=
  ⟨(128 * bitOf n 3 + 32 * bitOf n 2 + 8 * bitOf n 1 + 2 * bitOf n 0) % 256,
    Nat.mod_lt _ (by decide)⟩

/-- The frame that encodes the value `v`: byte `i` (for `i` from 1 to 6) spreads
the nibble `(v >> (6 - i) * 4) & 0xF`; bytes 0 and 7 are `b0` and `b7`. -/
def encodeFrame (v : Nat) (b0 b7 : Fin 256) : Frame := fun i =>
  if i.val = 0 then b0
  else if i.val = 7 then b7
  else spreadNibble ((v >>> ((6 - i.val) * 4)) &&& 0xF)

/-! ## Auxiliary definitions -/

/-- The eight loop iterations of `ConvertSPItoRawReading` written out, for the
nibbles of bytes 1 to 6 (iterations 0 and 7 do nothing). -/
def assemble (n1 n2 n3 n4 n5 n6 : Nat) : Nat :=
  ((((((0 ||| (n1 <<< 20) % 2 ^ 32) % 2 ^ 32
    ||| (n2 <<< 16) % 2 ^ 32) % 2 ^ 32
    ||| (n3 <<< 12) % 2 ^ 32) % 2 ^ 32
    ||| (n4 <<< 8) % 2 ^ 32) % 2 ^ 32
    ||| (n5 <<< 4) % 2 ^ 32) % 2 ^ 32
    ||| (n6 <<< 0) % 2 ^ 32) % 2 ^ 32

/-! ## Decoder lemmas -/

set_option maxRecDepth 100000 in
theorem nibbleOf_eq_specNibble : ∀ b : Fin 256, nibbleOf b.val = specNibble b.val := by
  decide

set_option maxRecDepth 100000 in
theorem nibbleOf_lt : ∀ b : Fin 256, nibbleOf b.val < 16 := by
  decide

set_option maxRecDepth 100000 in
theorem nibbleOf_mask : ∀ b : Fin 256, nibbleOf (b.val &&& 0xAA) = nibbleOf b.val := by
  decide

set_option maxRecDepth 100000 in
theorem nibbleOf_mask_inj :
    ∀ b : Fin 256, ∀ n : Fin 16, nibbleOf b.val = n.val →
      b.val &&& 0xAA = 128 * (n.val / 8) + 32 * (n.val / 4 % 2) + 8 * (n.val / 2 % 2)
        + 2 * (n.val % 2) := by
  decide

theorem or_low (k m x : Nat) (hx : x < 2 ^ k) : 2 ^ k * m ||| x = 2 ^ k * m + x :=
  (Nat.mul_add_lt_is_or hx m).symm

theorem ConvertSPItoRawReading_unfold (f : Frame) :
    ConvertSPItoRawReading f =
      assemble (nibbleOf (f 1).val) (nibbleOf (f 2).val) (nibbleOf (f 3).val)
        (nibbleOf (f 4).val) (nibbleOf (f 5).val) (nibbleOf (f 6).val) := by
  rfl

theorem assemble_eq (n1 n2 n3 n4 n5 n6 : Nat) (h1 : n1 < 16) (h2 : n2 < 16) (h3 : n3 < 16)
    (h4 : n4 < 16) (h5 : n5 < 16) (h6 : n6 < 16) :
    assemble n1 n2 n3 n4 n5 n6 =
      n1 * 16 ^ 5 + n2 * 16 ^ 4 + n3 * 16 ^ 3 + n4 * 16 ^ 2 + n5 * 16 ^ 1 + n6 * 16 ^ 0 := by
  unfold assemble
  simp only [Nat.shiftLeft_eq, Nat.zero_or]
  have e1 : n1 * 2 ^ 20 % 2 ^ 32 % 2 ^ 32 = 2 ^ 20 * n1 := by omega
  have e2 : n2 * 2 ^ 16 % 2 ^ 32 = n2 * 2 ^ 16 := by omega
  have e3 : n3 * 2 ^ 12 % 2 ^ 32 = n3 * 2 ^ 12 := by omega
  have e4 : n4 * 2 ^ 8 % 2 ^ 32 = n4 * 2 ^ 8 := by omega
  have e5 : n5 * 2 ^ 4 % 2 ^ 32 = n5 * 2 ^ 4 := by omega
  have e6 : n6 * 2 ^ 0 % 2 ^ 32 = n6 := by omega
  rw [e1, e2, or_low 20 n1 _ (by omega)]
  have a2 : (2 ^ 20 * n1 + n2 * 2 ^ 16) % 2 ^ 32 = 2 ^ 16 * (16 * n1 + n2) := by omega
  rw [a2, e3, or_low 16 _ _ (by omega)]
  have a3 : (2 ^ 16 * (16 * n1 + n2) + n3 * 2 ^ 12) % 2 ^ 32
      = 2 ^ 12 * (16 * (16 * n1 + n2) + n3) := by omega
  rw [a3, e4, or_low 12 _ _ (by omega)]
  have a4 : (2 ^ 12 * (16 * (16 * n1 + n2) + n3) + n4 * 2 ^ 8) % 2 ^ 32
      = 2 ^ 8 * (16 * (16 * (16 * n1 + n2) + n3) + n4) := by omega
  rw [a4, e5, or_low 8 _ _ (by omega)]
  have a5 : (2 ^ 8 * (16 * (16 * (16 * n1 + n2) + n3) + n4) + n5 * 2 ^ 4) % 2 ^ 32
      = 2 ^ 4 * (16 * (16 * (16 * (16 * n1 + n2) + n3) + n4) + n5) := by omega
  rw [a5, e6, or_low 4 _ _ (by omega)]
  omega

/-- The decoder's result as a base-16 number whose digits are the code's
nibbles of bytes 1 to 6. -/
theorem ConvertSPItoRawReading_digits (f : Frame) :
    ConvertSPItoRawReading f =
      nibbleOf (f 1).val * 16 ^ 5 + nibbleOf (f 2).val * 16 ^ 4 + nibbleOf (f 3).val * 16 ^ 3
        + nibbleOf (f 4).val * 16 ^ 2 + nibbleOf (f 5).val * 16 ^ 1
        + nibbleOf (f 6).val * 16 ^ 0 := by
  rw [ConvertSPItoRawReading_unfold]
  exact assemble_eq _ _ _ _ _ _ (nibbleOf_lt _) (nibbleOf_lt _) (nibbleOf_lt _)
    (nibbleOf_lt _) (nibbleOf_lt _) (nibbleOf_lt _)

theorem digits_extract (n1 n2 n3 n4 n5 n6 : Nat) (h1 : n1 < 16) (h2 : n2 < 16) (h3 : n3 < 16)
    (h4 : n4 < 16) (h5 : n5 < 16) (h6 : n6 < 16) (i : Nat) (hlo : 1 ≤ i) (hhi : i ≤ 6) :
    (n1 * 16 ^ 5 + n2 * 16 ^ 4 + n3 * 16 ^ 3 + n4 * 16 ^ 2 + n5 * 16 ^ 1 + n6 * 16 ^ 0)
        / 2 ^ ((6 - i) * 4) % 2 ^ 4
      = if i = 1 then n1 else if i = 2 then n2 else if i = 3 then n3 else if i = 4 then n4
        else if i = 5 then n5 else n6 := by
  interval_cases i <;> simp only [Nat.reducePow, Nat.reduceSub, Nat.reduceMul, Nat.reduceEqDiff,
    if_true, if_false] <;> omega

/-! ## Claims about the frame decoder -/

/-- C1: for every 8-byte frame the decoder returns the sum over i = 1..6 of
nibble(RxData[i]) * 16^(6-i), where nibble(b) takes its bits 3, 2, 1, 0 from
bits 7, 5, 3, 1 of b; so the nibble of byte i is exactly the four result bits
(6-i)*4 .. (6-i)*4+3. -/
theorem ConvertSPItoRawReading_nibble_sum (RxData : Frame) :
    ConvertSPItoRawReading RxData =
        specNibble (RxData 1).val * 16 ^ (6 - 1) + specNibble (RxData 2).val * 16 ^ (6 - 2)
          + specNibble (RxData 3).val * 16 ^ (6 - 3) + specNibble (RxData 4).val * 16 ^ (6 - 4)
          + specNibble (RxData 5).val * 16 ^ (6 - 5) + specNibble (RxData 6).val * 16 ^ (6 - 6)
      ∧ ∀ i : Fin 8, 1 ≤ i.val → i.val ≤ 6 →
          ConvertSPItoRawReading RxData / 2 ^ ((6 - i.val) * 4) % 2 ^ 4
            = specNibble (RxData i).val := by
  refine ⟨?_, ?_⟩
  · rw [ConvertSPItoRawReading_digits]
    simp only [nibbleOf_eq_specNibble, Nat.reduceSub]
  · intro i hlo hhi
    rw [ConvertSPItoRawReading_digits,
      digits_extract _ _ _ _ _ _ (nibbleOf_lt _) (nibbleOf_lt _) (nibbleOf_lt _)
        (nibbleOf_lt _) (nibbleOf_lt _) (nibbleOf_lt _) i.val hlo hhi]
    obtain ⟨i, hi⟩ := i
    simp only at hlo hhi ⊢
    interval_cases i <;> simp only [Nat.reduceEqDiff, if_true, if_false]
      <;> exact nibbleOf_eq_specNibble _

theorem ConvertSPItoRawReading_nibble_sum_witness :
    (1 : Nat) ≤ (3 : Fin 8).val ∧ (3 : Fin 8).val ≤ 6 ∧
      ConvertSPItoRawReading (Frame.mk8 0xFF 0x80 0x20 0x0A 0x02 0xFF 0x55 0x80)
          / 2 ^ ((6 - (3 : Fin 8).val) * 4) % 2 ^ 4
        = specNibble ((Frame.mk8 0xFF 0x80 0x20 0x0A 0x02 0xFF 0x55 0x80) 3).val :=
  ⟨by decide, by decide,
    (ConvertSPItoRawReading_nibble_sum
      (Frame.mk8 0xFF 0x80 0x20 0x0A 0x02 0xFF 0x55 0x80)).2 3 (by decide) (by decide)⟩

/-- C5: two frames that agree on bits 7, 5, 3, 1 of each of bytes 1 to 6
decode to the same raw reading, whatever bytes 0 and 7 and the even bits of
bytes 1 to 6 are. -/
theorem ConvertSPItoRawReading_noninterference (f g : Frame)
    (h : ∀ i : Fin 8, 1 ≤ i.val → i.val ≤ 6 → (f i).val &&& 0xAA = (g i).val &&& 0xAA) :
    ConvertSPItoRawReading f = ConvertSPItoRawReading g := by
  have key : ∀ i : Fin 8, 1 ≤ i.val → i.val ≤ 6 →
      nibbleOf (f i).val = nibbleOf (g i).val := by
    intro i hlo hhi
    rw [← nibbleOf_mask (f i), h i hlo hhi, nibbleOf_mask]
  rw [ConvertSPItoRawReading_unfold, ConvertSPItoRawReading_unfold,
    key 1 (by decide) (by decide), key 2 (by decide) (by decide),
    key 3 (by decide) (by decide), key 4 (by decide) (by decide),
    key 5 (by decide) (by decide), key 6 (by decide) (by decide)]

theorem ConvertSPItoRawReading_noninterference_witness :
    (∀ i : Fin 8, 1 ≤ i.val → i.val ≤ 6 →
        ((Frame.mk8 0x00 0x80 0x22 0x0A 0x02 0xAA 0x00 0x00) i).val &&& 0xAA
          = ((Frame.mk8 0xFF 0xD5 0x37 0x5B 0x03 0xFF 0x55 0x80) i).val &&& 0xAA) ∧
      ConvertSPItoRawReading (Frame.mk8 0x00 0x80 0x22 0x0A 0x02 0xAA 0x00 0x00)
        = ConvertSPItoRawReading (Frame.mk8 0xFF 0xD5 0x37 0x5B 0x03 0xFF 0x55 0x80) :=
  ⟨by decide, ConvertSPItoRawReading_noninterference _ _ (by decide)⟩

/-- C10: the all-zero frame decodes to 0, and every frame with bits 7, 5, 3, 1
set in each of bytes 1 to 6 decodes to 0xFFFFFF, whatever its other bits and
bytes 0 and 7 are. -/
theorem ConvertSPItoRawReading_extremes :
    ConvertSPItoRawReading (fun _ => 0) = 0 ∧
      ∀ RxData : Frame,
        (∀ i : Fin 8, 1 ≤ i.val → i.val ≤ 6 → (RxData i).val &&& 0xAA = 0xAA) →
        ConvertSPItoRawReading RxData = 0xFFFFFF := by
  refine ⟨by decide, ?_⟩
  intro RxData h
  have key : ∀ i : Fin 8, 1 ≤ i.val → i.val ≤ 6 → nibbleOf (RxData i).val = 15 := by
    intro i hlo hhi
    rw [← nibbleOf_mask (RxData i), h i hlo hhi]
    decide
  rw [ConvertSPItoRawReading_digits,
    key 1 (by decide) (by decide), key 2 (by decide) (by decide),
    key 3 (by decide) (by decide), key 4 (by decide) (by decide),
    key 5 (by decide) (by decide), key 6 (by decide) (by decide)]
  decide

theorem ConvertSPItoRawReading_extremes_witness :
    (∀ i : Fin 8, 1 ≤ i.val → i.val ≤ 6 →
        ((Frame.mk8 0x13 0xAA 0xFF 0xEB 0xAE 0xBA 0xAB 0x00) i).val &&& 0xAA = 0xAA) ∧
      ConvertSPItoRawReading (Frame.mk8 0x13 0xAA 0xFF 0xEB 0xAE 0xBA 0xAB 0x00) = 0xFFFFFF :=
  ⟨by decide, ConvertSPItoRawReading_extremes.2 _ (by decide)⟩

/-! ## Signed converter lemmas -/

theorem and_bit23_of_lt (r : Nat) (h : r < 2 ^ 23) : r &&& 0x800000 = 0 := by
  apply Nat.eq_of_testBit_eq
  intro i
  have h23 : (0x800000 : Nat) = 2 ^ 23 := by norm_num
  rw [Nat.testBit_and, h23, Nat.testBit_two_pow, Nat.zero_testBit]
  by_cases hi : 23 = i
  · subst hi
    simp [Nat.testBit_lt_two_pow h]
  · simp [hi]

theorem and_bit23_of_ge (r : Nat) (hlo : 2 ^ 23 ≤ r) (hhi : r < 2 ^ 24) :
    r &&& 0x800000 ≠ 0 := by
  intro h0
  have hb : (r &&& 0x800000).testBit 23 = true := by
    have h23 : (0x800000 : Nat) = 2 ^ 23 := by norm_num
    have hr : r = 2 ^ 23 + (r - 2 ^ 23) := by omega
    rw [Nat.testBit_and, h23, Nat.testBit_two_pow, hr, Nat.testBit_two_pow_add_eq,
      Nat.testBit_lt_two_pow (by omega)]
    simp
  rw [h0, Nat.zero_testBit] at hb
  exact Bool.noConfusion hb

theorem or_upper_byte (r : Nat) (h : r < 2 ^ 24) : r ||| 0xFF000000 = 0xFF000000 + r := by
  have e : (0xFF000000 : Nat) = 2 ^ 24 * 255 := by norm_num
  rw [Nat.or_comm, e, or_low 24 255 r h]

theorem excessBits_of_lt (fuel u : Nat) (h : u < 2 ^ 24) : excessBits fuel u = 0 := by
  cases fuel with
  | zero => rfl
  | succ n => simp only [excessBits, if_pos h]

theorem floatOfUInt32_exact (u : Nat) (h : u < 2 ^ 24) : floatOfUInt32 u = u := by
  simp only [floatOfUInt32, excessBits_of_lt 8 u h, Nat.pow_zero, Nat.mod_one, Nat.div_one,
    Nat.mul_zero, Nat.mul_one]
  rw [if_pos (by decide)]

theorem excessBits_top (u : Nat) (hlo : 2 ^ 31 ≤ u) : excessBits 8 u = 8 := by
  simp only [excessBits]
  split_ifs <;> omega

theorem floatOfUInt32_top (u : Nat) (hlo : 0xFF800000 ≤ u) :
    0xFF800000 ≤ floatOfUInt32 u := by
  have he : excessBits 8 u = 8 := excessBits_top u (by omega)
  simp only [floatOfUInt32, he]
  split_ifs <;> omega

theorem ConvertRawReadingToSignedFloat_of_set (r : Nat) (h : r &&& 0x800000 ≠ 0) :
    ConvertRawReadingToSignedFloat r
      = ((floatOfUInt32 ((r ||| 0xFF000000) % 2 ^ 32) : Nat) : ℚ) := by
  simp only [ConvertRawReadingToSignedFloat, if_pos h]

theorem ConvertRawReadingToSignedFloat_of_clear (r : Nat) (h : r &&& 0x800000 = 0) :
    ConvertRawReadingToSignedFloat r = ((floatOfUInt32 r : Nat) : ℚ) := by
  simp only [ConvertRawReadingToSignedFloat, h, ne_eq, not_true_eq_false, if_false]

/-- For a reading below 2^23 the cast is exact: the result is the reading. -/
theorem ConvertRawReadingToSignedFloat_of_lt (r : Nat) (h : r < 2 ^ 23) :
    ConvertRawReadingToSignedFloat r = (r : ℚ) := by
  rw [ConvertRawReadingToSignedFloat_of_clear r (and_bit23_of_lt r h),
    floatOfUInt32_exact r (by omega)]

/-- For every 24-bit reading with bit 23 set the result is a positive number
of at least 0xFF800000, and so never the two's-complement value. -/
theorem ConvertRawReadingToSignedFloat_of_sign_bit (r : Nat) (hlo : 0x800000 ≤ r)
    (hhi : r ≤ 0xFFFFFF) :
    (4286578688 : ℚ) ≤ ConvertRawReadingToSignedFloat r ∧
      ConvertRawReadingToSignedFloat r ≠ (r : ℚ) - 2 ^ 24 := by
  have h1 : (4286578688 : ℚ) ≤ ConvertRawReadingToSignedFloat r := by
    rw [ConvertRawReadingToSignedFloat_of_set r (and_bit23_of_ge r (by omega) (by omega)),
      or_upper_byte r (by omega), Nat.mod_eq_of_lt (by omega)]
    have := floatOfUInt32_top (0xFF000000 + r) (by omega)
    exact_mod_cast this
  refine ⟨h1, ?_⟩
  intro hc
  rw [hc] at h1
  have h2 : (r : ℚ) ≤ 16777215 := by exact_mod_cast hhi
  norm_num at h1
  linarith

/-! ## Claims about the signed converter -/

/-- C2 (fails on the code): for the raw reading 0x800000, whose bit 23 is set,
`ConvertRawReadingToSignedFloat` returns 4286578688.0, the value of the
unsigned pattern 0xFF800000, and not the two's-complement value -8388608.0:
the sign-extended pattern is cast to `float` as an `uint32_t`. -/
theorem ConvertRawReadingToSignedFloat_sign_bit_unsigned :
    ConvertRawReadingToSignedFloat 0x800000 = 4286578688 ∧
      ConvertRawReadingToSignedFloat 0x800000 ≠ -8388608 := by
  have e : ConvertRawReadingToSignedFloat 0x800000 = 4286578688 := by
    rw [ConvertRawReadingToSignedFloat_of_set _ (by decide)]
    have : floatOfUInt32 ((0x800000 ||| 0xFF000000) % 2 ^ 32) = 4286578688 := by decide
    rw [this]
    norm_num
  refine ⟨e, ?_⟩
  rw [e]
  norm_num

/-- C9: for every raw reading r with bit 23 clear and bits 24-31 zero
(r < 2^23), `ConvertRawReadingToSignedFloat` returns exactly r, without
rounding, as a non-negative value. -/
theorem ConvertRawReadingToSignedFloat_nonneg_exact (r : Nat) (h : r < 2 ^ 23) :
    ConvertRawReadingToSignedFloat r = (r : ℚ) ∧ 0 ≤ ConvertRawReadingToSignedFloat r := by
  rw [ConvertRawReadingToSignedFloat_of_lt r h]
  exact ⟨rfl, Nat.cast_nonneg r⟩

theorem ConvertRawReadingToSignedFloat_nonneg_exact_witness :
    (0x7FFFFF : Nat) < 2 ^ 23 ∧
      ConvertRawReadingToSignedFloat 0x7FFFFF = ((8388607 : Nat) : ℚ) ∧
      0 ≤ ConvertRawReadingToSignedFloat 0x7FFFFF :=
  ⟨by decide, ConvertRawReadingToSignedFloat_nonneg_exact 0x7FFFFF (by decide)⟩

/-! ## End-to-end scenario -/

/-- C4 (as stated, fails): the frame 00 AA AA AA AA AA AA 80 does not decode
to raw reading 0. -/
theorem preload_frame_not_zero :
    ¬ (ConvertSPItoRawReading (Frame.mk8 0x00 0xAA 0xAA 0xAA 0xAA 0xAA 0xAA 0x80) = 0) := by
  decide

/-- C4 (amended): the frame 00 AA AA AA AA AA AA 80 decodes to raw reading
0xFFFFFF; raw reading 0, which is what the all-zero frame decodes to, converts
to the signed value 0.0, and `ConvertRawToCmH2O` of 0.0 equals
PRESSURE_READING_1 - CALIBRATION_SLOPE * RAW_READING_1. -/
theorem end_to_end_scenario :
    ConvertSPItoRawReading (Frame.mk8 0x00 0xAA 0xAA 0xAA 0xAA 0xAA 0xAA 0x80) = 0xFFFFFF ∧
      ConvertSPItoRawReading (fun _ => 0) = 0 ∧
      ConvertRawReadingToSignedFloat (ConvertSPItoRawReading (fun _ => 0)) = 0 ∧
      ConvertRawToCmH2O (ConvertRawReadingToSignedFloat (ConvertSPItoRawReading (fun _ => 0)))
        = PRESSURE_READING_1 - CALIBRATION_SLOPE * RAW_READING_1 := by
  have hz : ConvertSPItoRawReading (fun _ => 0) = 0 := by decide
  have hs : ConvertRawReadingToSignedFloat 0 = 0 := by
    rw [ConvertRawReadingToSignedFloat_of_lt 0 (by decide)]
    exact Nat.cast_zero
  refine ⟨by decide, hz, ?_, ?_⟩
  · rw [hz, hs]
  · rw [hz, hs]
    unfold ConvertRawToCmH2O CALIBRATION_SLOPE
    ring

/-! ## Controller lemmas -/

theorem run_cons (I : Nat) (s : State) (e : Event) (tr : List Event) :
    run I s (e :: tr) = run I (step I s e) tr := rfl

theorem run_append (I : Nat) (s : State) (tr1 tr2 : List Event) :
    run I s (tr1 ++ tr2) = run I (run I s tr1) tr2 := by
  simp only [run, List.foldl_append]

/-- While the flag is not 1, only a completion callback for the configured
instance changes the state. -/
theorem step_of_flag_ne_one (I : Nat) (s : State) (e : Event) (hf : s.SPI_Comp_Flag ≠ 1)
    (he : isCompletion I e = false) : step I s e = s := by
  cases e with
  | poll d =>
    simp only [step, TM7711_Read_Polling]
    rw [if_neg (fun h => hf h.1)]
  | complete hspi =>
    simp only [isCompletion, decide_eq_false_iff_not] at he
    simp only [step, HAL_SPI_TxRxCpltCallback, if_neg he]

theorem run_of_flag_ne_one (I : Nat) (s : State) (tr : List Event) (hf : s.SPI_Comp_Flag ≠ 1)
    (htr : ∀ e ∈ tr, isCompletion I e = false) : run I s tr = s := by
  induction tr with
  | nil => rfl
  | cons e tr ih =>
    rw [run_cons, step_of_flag_ne_one I s e hf (htr e (List.mem_cons_self e tr))]
    exact ih (fun e' he' => htr e' (List.mem_cons_of_mem e he'))

/-- An event that requests a transfer is a poll, found the flag at 1 and leaves
it at 0. -/
theorem flag_of_startsTransfer (I : Nat) (s : State) (e : Event)
    (h : startsTransfer I s e) : s.SPI_Comp_Flag = 1 ∧ (step I s e).SPI_Comp_Flag = 0 := by
  unfold startsTransfer at h
  cases e with
  | poll d =>
    simp only [step, TM7711_Read_Polling] at h ⊢
    by_cases hc : s.SPI_Comp_Flag = 1 ∧ d = GPIO_PinState.GPIO_PIN_RESET
    · rw [if_pos hc]
      exact ⟨hc.1, rfl⟩
    · rw [if_neg hc] at h
      omega
  | complete hspi =>
    simp only [step, HAL_SPI_TxRxCpltCallback] at h
    split_ifs at h <;> simp at h

theorem transfers_le_of_no_completion (I : Nat) (s : State) (tr : List Event)
    (htr : ∀ e ∈ tr, isCompletion I e = false) :
    (run I s tr).transfers.length ≤ s.transfers.length + 1 := by
  induction tr generalizing s with
  | nil => exact Nat.le_succ _
  | cons e tr ih =>
    have hrest : ∀ e' ∈ tr, isCompletion I e' = false :=
      fun e' he' => htr e' (List.mem_cons_of_mem e he')
    rw [run_cons]
    by_cases hs : startsTransfer I s e
    · have hf := (flag_of_startsTransfer I s e hs).2
      rw [run_of_flag_ne_one I _ tr (by rw [hf]; decide) hrest]
      exact Nat.le_of_eq hs
    · have hsame : (step I s e).transfers.length = s.transfers.length := by
        unfold startsTransfer at hs
        cases e with
        | poll d =>
          simp only [step, TM7711_Read_Polling] at hs ⊢
          split_ifs at hs ⊢
          · simp [TM7711_Read_Raw_DMA] at hs
          · rfl
        | complete hspi =>
          simp only [step, HAL_SPI_TxRxCpltCallback]
          split_ifs <;> rfl
      have := ih (step I s e) hrest
      omega

/-- While the flag is 1, every event other than a poll that finds the device
ready leaves the state as it is. -/
theorem step_of_flag_one (I : Nat) (s : State) (e : Event) (hf : s.SPI_Comp_Flag = 1)
    (he : e ≠ Event.poll GPIO_PinState.GPIO_PIN_RESET) : step I s e = s := by
  cases e with
  | poll d =>
    have hd : d ≠ GPIO_PinState.GPIO_PIN_RESET := fun h => he (by rw [h])
    simp only [step, TM7711_Read_Polling]
    rw [if_neg (fun h => hd h.2)]
  | complete hspi =>
    obtain ⟨flag, tx, rx, trs⟩ := s
    simp only at hf
    subst hf
    simp only [step, HAL_SPI_TxRxCpltCallback, ite_self]

theorem run_of_flag_one (I : Nat) (s : State) (tr : List Event) (hf : s.SPI_Comp_Flag = 1)
    (htr : ∀ e ∈ tr, e ≠ Event.poll GPIO_PinState.GPIO_PIN_RESET) : run I s tr = s := by
  induction tr with
  | nil => rfl
  | cons e tr ih =>
    rw [run_cons, step_of_flag_one I s e hf (htr e (List.mem_cons_self e tr))]
    exact ih (fun e' he' => htr e' (List.mem_cons_of_mem e he'))

/-- A poll that finds the flag at 1 and the device ready requests one transfer
of `TxData` and clears the flag. -/
theorem poll_of_flag_one (s : State) (h : s.SPI_Comp_Flag = 1) :
    (TM7711_Read_Polling GPIO_PinState.GPIO_PIN_RESET s).transfers
        = s.transfers ++ [{ pTxData := s.TxData, Size := 8 }] ∧
      (TM7711_Read_Polling GPIO_PinState.GPIO_PIN_RESET s).SPI_Comp_Flag = 0 := by
  unfold TM7711_Read_Polling
  rw [if_pos ⟨h, rfl⟩]
  exact ⟨rfl, rfl⟩

/-! ## Claims about the acquisition controller -/

/-- C3: single flight.  From every state, in every finite trace of polls
(with any device-ready readings) and completion callbacks, between two events
that start a transfer there is a completion callback for the configured SPI
instance; and a run of polls alone starts at most one transfer, however long
it is. -/
theorem single_flight (SPI_INSTANCE : Nat) (s : State) :
    (∀ (pre mid : List Event) (e1 e2 : Event),
        startsTransfer SPI_INSTANCE (run SPI_INSTANCE s pre) e1 →
        startsTransfer SPI_INSTANCE (run SPI_INSTANCE s (pre ++ e1 :: mid)) e2 →
        ∃ hspi : SPI_HandleTypeDef,
          Event.complete hspi ∈ mid ∧ hspi.Instance = SPI_INSTANCE) ∧
      (∀ douts : List GPIO_PinState,
        (run SPI_INSTANCE s (douts.map Event.poll)).transfers.length
          ≤ s.transfers.length + 1) := by
  refine ⟨?_, ?_⟩
  · intro pre mid e1 e2 h1 h2
    by_contra hno
    have hmid : ∀ e ∈ mid, isCompletion SPI_INSTANCE e = false := by
      intro e he
      cases e with
      | poll d => rfl
      | complete hspi =>
        simp only [isCompletion, decide_eq_false_iff_not]
        intro hi
        exact hno ⟨hspi, he, hi⟩
    have hf := (flag_of_startsTransfer SPI_INSTANCE _ e1 h1).2
    rw [run_append, run_cons,
      run_of_flag_ne_one SPI_INSTANCE _ mid (by rw [hf]; decide) hmid] at h2
    have hf2 := (flag_of_startsTransfer SPI_INSTANCE _ e2 h2).1
    rw [hf] at hf2
    exact absurd hf2 (by decide)
  · intro douts
    apply transfers_le_of_no_completion
    intro e he
    obtain ⟨d, -, rfl⟩ := List.mem_map.1 he
    rfl

theorem single_flight_witness :
    startsTransfer 0x40013000
        (run 0x40013000 initialState [Event.complete { Instance := 0x40013000 }])
        (Event.poll GPIO_PinState.GPIO_PIN_RESET) ∧
      startsTransfer 0x40013000
        (run 0x40013000 initialState
          ([Event.complete { Instance := 0x40013000 }]
            ++ Event.poll GPIO_PinState.GPIO_PIN_RESET
              :: [Event.poll GPIO_PinState.GPIO_PIN_RESET,
                  Event.complete { Instance := 0x40013000 },
                  Event.poll GPIO_PinState.GPIO_PIN_SET]))
        (Event.poll GPIO_PinState.GPIO_PIN_RESET) ∧
      ∃ hspi : SPI_HandleTypeDef,
        Event.complete hspi ∈
            [Event.poll GPIO_PinState.GPIO_PIN_RESET,
              Event.complete { Instance := 0x40013000 },
              Event.poll GPIO_PinState.GPIO_PIN_SET] ∧
          hspi.Instance = 0x40013000 :=
  ⟨by decide, by decide,
    (single_flight 0x40013000 initialState).1
      [Event.complete { Instance := 0x40013000 }]
      [Event.poll GPIO_PinState.GPIO_PIN_RESET,
        Event.complete { Instance := 0x40013000 },
        Event.poll GPIO_PinState.GPIO_PIN_SET]
      (Event.poll GPIO_PinState.GPIO_PIN_RESET)
      (Event.poll GPIO_PinState.GPIO_PIN_RESET) (by decide) (by decide)⟩

/-- C6 (as stated, fails): in the initial state, where `SPI_Comp_Flag` is 0
and no transfer was ever requested, a poll that finds the device ready
requests no transfer. -/
theorem poll_initial_state_starts_nothing :
    initialState.SPI_Comp_Flag = 0 ∧ initialState.transfers = [] ∧
      (TM7711_Read_Polling GPIO_PinState.GPIO_PIN_RESET initialState).transfers = [] ∧
      ¬ startsTransfer 0x40013000 initialState (Event.poll GPIO_PinState.GPIO_PIN_RESET) := by
  refine ⟨rfl, rfl, rfl, by decide⟩

/-- C6 (amended): whenever `SPI_Comp_Flag` is 1, a call of
`TM7711_Read_Polling` that finds the device ready requests exactly one
transfer, of `TxData` and 8 bytes, and sets `SPI_Comp_Flag` to 0. -/
theorem poll_ready_of_flag_one (s : State) (h : s.SPI_Comp_Flag = 1) :
    (TM7711_Read_Polling GPIO_PinState.GPIO_PIN_RESET s).transfers
        = s.transfers ++ [{ pTxData := s.TxData, Size := 8 }] ∧
      (TM7711_Read_Polling GPIO_PinState.GPIO_PIN_RESET s).SPI_Comp_Flag = 0 :=
  poll_of_flag_one s h

theorem poll_ready_of_flag_one_witness :
    ({ initialState with SPI_Comp_Flag := 1 } : State).SPI_Comp_Flag = 1 ∧
      (TM7711_Read_Polling GPIO_PinState.GPIO_PIN_RESET
          { initialState with SPI_Comp_Flag := 1 }).transfers
        = ({ initialState with SPI_Comp_Flag := 1 } : State).transfers
            ++ [{ pTxData := ({ initialState with SPI_Comp_Flag := 1 } : State).TxData,
                  Size := 8 }] ∧
      (TM7711_Read_Polling GPIO_PinState.GPIO_PIN_RESET
          { initialState with SPI_Comp_Flag := 1 }).SPI_Comp_Flag = 0 :=
  ⟨rfl, poll_ready_of_flag_one { initialState with SPI_Comp_Flag := 1 } rfl⟩

/-- C7: for every value of `SPI_Comp_Flag`, a call of `TM7711_Read_Polling`
that finds the device not ready leaves the whole state as it is: it starts no
transfer and does not change `SPI_Comp_Flag`. -/
theorem poll_not_ready_no_effect (s : State) (DOUT_STATUS : GPIO_PinState)
    (h : DOUT_STATUS ≠ GPIO_PinState.GPIO_PIN_RESET) :
    TM7711_Read_Polling DOUT_STATUS s = s ∧
      (TM7711_Read_Polling DOUT_STATUS s).transfers = s.transfers ∧
      (TM7711_Read_Polling DOUT_STATUS s).SPI_Comp_Flag = s.SPI_Comp_Flag := by
  have e : TM7711_Read_Polling DOUT_STATUS s = s := by
    simp only [TM7711_Read_Polling]
    rw [if_neg (fun hc => h hc.2)]
  rw [e]
  exact ⟨rfl, rfl, rfl⟩

theorem poll_not_ready_no_effect_witness :
    GPIO_PinState.GPIO_PIN_SET ≠ GPIO_PinState.GPIO_PIN_RESET ∧
      TM7711_Read_Polling GPIO_PinState.GPIO_PIN_SET { initialState with SPI_Comp_Flag := 1 }
        = { initialState with SPI_Comp_Flag := 1 } ∧
      (TM7711_Read_Polling GPIO_PinState.GPIO_PIN_SET
          { initialState with SPI_Comp_Flag := 1 }).transfers
        = ({ initialState with SPI_Comp_Flag := 1 } : State).transfers ∧
      (TM7711_Read_Polling GPIO_PinState.GPIO_PIN_SET
          { initialState with SPI_Comp_Flag := 1 }).SPI_Comp_Flag
        = ({ initialState with SPI_Comp_Flag := 1 } : State).SPI_Comp_Flag :=
  ⟨by decide, poll_not_ready_no_effect _ _ (by decide)⟩

/-- C8: after `HAL_SPI_TxRxCpltCallback` has fired for the configured SPI
instance, and after any events that are not a poll with the device ready, the
next poll with the device ready starts exactly one transfer and sets
`SPI_Comp_Flag` to 0; every further trace without a completion callback for
the configured instance then changes nothing, so no further poll starts a
transfer. -/
theorem poll_after_completion (SPI_INSTANCE : Nat) (s : State) (hspi : SPI_HandleTypeDef)
    (h : hspi.Instance = SPI_INSTANCE) (idle later : List Event)
    (hidle : ∀ e ∈ idle, e ≠ Event.poll GPIO_PinState.GPIO_PIN_RESET)
    (hlater : ∀ e ∈ later, isCompletion SPI_INSTANCE e = false) :
    (run SPI_INSTANCE (HAL_SPI_TxRxCpltCallback SPI_INSTANCE hspi s) idle).transfers
        = s.transfers ∧
      (TM7711_Read_Polling GPIO_PinState.GPIO_PIN_RESET
          (run SPI_INSTANCE (HAL_SPI_TxRxCpltCallback SPI_INSTANCE hspi s) idle)).transfers
        = s.transfers ++ [{ pTxData := s.TxData, Size := 8 }] ∧
      (TM7711_Read_Polling GPIO_PinState.GPIO_PIN_RESET
          (run SPI_INSTANCE (HAL_SPI_TxRxCpltCallback SPI_INSTANCE hspi s) idle)).SPI_Comp_Flag
        = 0 ∧
      run SPI_INSTANCE
          (TM7711_Read_Polling GPIO_PinState.GPIO_PIN_RESET
            (run SPI_INSTANCE (HAL_SPI_TxRxCpltCallback SPI_INSTANCE hspi s) idle)) later
        = TM7711_Read_Polling GPIO_PinState.GPIO_PIN_RESET
            (run SPI_INSTANCE (HAL_SPI_TxRxCpltCallback SPI_INSTANCE hspi s) idle) := by
  have hcb : HAL_SPI_TxRxCpltCallback SPI_INSTANCE hspi s = { s with SPI_Comp_Flag := 1 } := by
    simp only [HAL_SPI_TxRxCpltCallback, if_pos h]
  rw [run_of_flag_one SPI_INSTANCE _ idle (by rw [hcb]) hidle, hcb]
  have hpoll := poll_of_flag_one { s with SPI_Comp_Flag := 1 } rfl
  refine ⟨rfl, hpoll.1, hpoll.2, ?_⟩
  exact run_of_flag_ne_one SPI_INSTANCE _ later (by rw [hpoll.2]; decide) hlater

theorem poll_after_completion_witness :
    ({ Instance := 0x40013000 } : SPI_HandleTypeDef).Instance = 0x40013000 ∧
      (∀ e ∈ [Event.poll GPIO_PinState.GPIO_PIN_SET,
          Event.complete { Instance := 0x40003800 }],
        e ≠ Event.poll GPIO_PinState.GPIO_PIN_RESET) ∧
      (∀ e ∈ [Event.poll GPIO_PinState.GPIO_PIN_RESET,
          Event.complete { Instance := 0x40003800 },
          Event.poll GPIO_PinState.GPIO_PIN_RESET],
        isCompletion 0x40013000 e = false) ∧
      (TM7711_Read_Polling GPIO_PinState.GPIO_PIN_RESET
          (run 0x40013000
            (HAL_SPI_TxRxCpltCallback 0x40013000 { Instance := 0x40013000 } initialState)
            [Event.poll GPIO_PinState.GPIO_PIN_SET,
              Event.complete { Instance := 0x40003800 }])).transfers
        = initialState.transfers ++ [{ pTxData := initialState.TxData, Size := 8 }] :=
  ⟨rfl, by decide, by decide,
    (poll_after_completion 0x40013000 initialState { Instance := 0x40013000 } rfl
      [Event.poll GPIO_PinState.GPIO_PIN_SET, Event.complete { Instance := 0x40003800 }]
      [Event.poll GPIO_PinState.GPIO_PIN_RESET, Event.complete { Instance := 0x40003800 },
        Event.poll GPIO_PinState.GPIO_PIN_RESET]
      (by decide) (by decide)).2.1⟩

/-! ## Further claims about the frame decoder -/

/-- C11: for every 8-byte frame the raw reading is a 24-bit quantity: it is
below 2^24, so bits 24 to 31 of the returned 32-bit value are zero. -/
theorem ConvertSPItoRawReading_lt (RxData : Frame) :
    ConvertSPItoRawReading RxData < 2 ^ 24 ∧
      ConvertSPItoRawReading RxData / 2 ^ 24 % 2 ^ 8 = 0 := by
  have h1 := nibbleOf_lt (RxData 1)
  have h2 := nibbleOf_lt (RxData 2)
  have h3 := nibbleOf_lt (RxData 3)
  have h4 := nibbleOf_lt (RxData 4)
  have h5 := nibbleOf_lt (RxData 5)
  have h6 := nibbleOf_lt (RxData 6)
  rw [ConvertSPItoRawReading_digits]
  simp only [Nat.reducePow]
  omega

/-! ## Claims about the calibration mapper -/

/-- C12: `ConvertRawToCmH2O` is exact at both calibration points, in exact
arithmetic: RAW_READING_1 = 1957000 maps to PRESSURE_READING_1 = 1.0 and
RAW_READING_2 = 2614400 maps to PRESSURE_READING_2 = 13.5. -/
theorem ConvertRawToCmH2O_calibration_points :
    RAW_READING_1 = 1957000 ∧ PRESSURE_READING_1 = 1 ∧
      ConvertRawToCmH2O RAW_READING_1 = PRESSURE_READING_1 ∧
      RAW_READING_2 = 2614400 ∧ PRESSURE_READING_2 = 13.5 ∧
      ConvertRawToCmH2O RAW_READING_2 = PRESSURE_READING_2 := by
  refine ⟨rfl, rfl, ?_, rfl, ?_, ?_⟩
  · simp only [ConvertRawToCmH2O, sub_self, mul_zero, zero_add]
  · norm_num [PRESSURE_READING_2]
  · norm_num [ConvertRawToCmH2O, RAW_READING_1, RAW_READING_2, PRESSURE_READING_1,
      PRESSURE_READING_2]

/-- C13: `ConvertRawToCmH2O` is affine, without clamping: for all raw values x
and y, the midpoint of x and y maps to the midpoint of their images; the
midpoint 2285700 of the two calibration readings maps to 7.25, the midpoint
of the two calibration pressures. -/
theorem ConvertRawToCmH2O_midpoint (x y : ℚ) :
    ConvertRawToCmH2O ((x + y) / 2) = (ConvertRawToCmH2O x + ConvertRawToCmH2O y) / 2 ∧
      (RAW_READING_1 + RAW_READING_2) / 2 = 2285700 ∧
      (PRESSURE_READING_1 + PRESSURE_READING_2) / 2 = 7.25 ∧
      ConvertRawToCmH2O 2285700 = 7.25 := by
  refine ⟨?_, ?_, ?_, ?_⟩
  · simp only [ConvertRawToCmH2O]
    ring
  · norm_num [RAW_READING_1, RAW_READING_2]
  · norm_num [PRESSURE_READING_1, PRESSURE_READING_2]
  · norm_num [ConvertRawToCmH2O, RAW_READING_1, RAW_READING_2, PRESSURE_READING_1,
      PRESSURE_READING_2]

/-! ## Claims about the unit converter -/

/-- The exponent of a positive number lying in `[2 ^ e, 2 ^ (e + 1))` is `e`. -/
theorem log_two_eq (x : ℚ) (e : ℤ) (hlo : (2 : ℚ) ^ e ≤ x) (hhi : x < 2 ^ (e + 1)) :
    Int.log 2 x = e := by
  have hpos : 0 < x := lt_of_lt_of_le (by positivity) hlo
  apply le_antisymm
  · have := (Int.lt_zpow_iff_log_lt (b := 2) (by decide) hpos (x := e + 1)).1
      (by exact_mod_cast hhi)
    omega
  · exact (Int.zpow_le_iff_le_log (b := 2) (by decide) hpos).1 (by exact_mod_cast hlo)

/-- A number less than one half away from the integer `m` rounds to `m`. -/
theorem roundHalfEven_of_near (y : ℚ) (m : ℤ) (h1 : (m : ℚ) - 1 / 2 < y)
    (h2 : y < m + 1 / 2) : roundHalfEven y = m := by
  unfold roundHalfEven
  by_cases hy : y < m
  · have hf : ⌊y⌋ = m - 1 := by
      rw [Int.floor_eq_iff]
      push_cast
      constructor <;> linarith
    rw [hf]
    push_cast
    rw [if_neg (by linarith), if_pos (by linarith)]
    ring
  · have hf : ⌊y⌋ = m := by
      rw [Int.floor_eq_iff]
      constructor <;> linarith
    rw [hf, if_pos (by linarith)]

/-- The rounding of a number whose exponent `e` is known and at least `-126`. -/
theorem binary32_of_exponent (x : ℚ) (e : ℤ) (hlo : (2 : ℚ) ^ e ≤ |x|)
    (hhi : |x| < 2 ^ (e + 1)) (hmin : -126 ≤ e) :
    binary32 x = (roundHalfEven (x / 2 ^ (e - 23)) : ℚ) * 2 ^ (e - 23) := by
  have hpos : 0 < |x| := lt_of_lt_of_le (by positivity) hlo
  have hx : x ≠ 0 := abs_pos.1 hpos
  unfold binary32
  rw [if_neg hx]
  simp only [log_two_eq |x| e hlo hhi, max_eq_left hmin]

/-- The value of the literal `0.0980665f`. -/
theorem binary32_literal : binary32 0.0980665 = 13162263 / 134217728 := by
  rw [binary32_of_exponent 0.0980665 (-4) (by norm_num [abs_of_pos])
    (by norm_num [abs_of_pos]) (by decide)]
  rw [roundHalfEven_of_near _ 13162263 (by norm_num) (by norm_num)]
  norm_num

/-- Rounding to an integer moves a number by at most one half. -/
theorem roundHalfEven_abs_sub_le (y : ℚ) : |(roundHalfEven y : ℚ) - y| ≤ 1 / 2 := by
  have h1 := Int.floor_le y
  have h2 := Int.lt_floor_add_one y
  unfold roundHalfEven
  rw [abs_le]
  split_ifs <;> push_cast <;> constructor <;> linarith

/-- In the normal range, rounding to binary32 has relative error at most `2 ^ (-24)`. -/
theorem binary32_abs_sub_le (x : ℚ) (h : (2 : ℚ) ^ (-126 : ℤ) ≤ |x|) :
    |binary32 x - x| ≤ |x| / 2 ^ 24 := by
  have hpos : 0 < |x| := lt_of_lt_of_le (by positivity) h
  have hlo : (2 : ℚ) ^ Int.log 2 |x| ≤ |x| := by
    exact_mod_cast Int.zpow_log_le_self (b := 2) (by decide) hpos
  have hhi : |x| < (2 : ℚ) ^ (Int.log 2 |x| + 1) := by
    exact_mod_cast Int.lt_zpow_succ_log_self (b := 2) (by decide) |x|
  have hmin : -126 ≤ Int.log 2 |x| :=
    (Int.zpow_le_iff_le_log (b := 2) (by decide) hpos).1 (by exact_mod_cast h)
  rw [binary32_of_exponent x _ hlo hhi hmin]
  generalize Int.log 2 |x| = e at hlo
  have hq : (0 : ℚ) < 2 ^ (e - 23) := by positivity
  have hr := roundHalfEven_abs_sub_le (x / 2 ^ (e - 23))
  have e1 : (roundHalfEven (x / 2 ^ (e - 23)) : ℚ) * 2 ^ (e - 23) - x
      = ((roundHalfEven (x / 2 ^ (e - 23)) : ℚ) - x / 2 ^ (e - 23)) * 2 ^ (e - 23) := by
    field_simp
  have e2 : (2 : ℚ) ^ (e - 23) = 2 ^ e / 2 ^ 23 := by
    rw [zpow_sub₀ (by norm_num)]
    norm_num
  rw [e1, abs_mul, abs_of_pos hq]
  calc |(roundHalfEven (x / 2 ^ (e - 23)) : ℚ) - x / 2 ^ (e - 23)| * 2 ^ (e - 23)
      ≤ 1 / 2 * 2 ^ (e - 23) := by
        exact mul_le_mul_of_nonneg_right hr (le_of_lt hq)
    _ = 2 ^ e / 2 ^ 24 := by rw [e2]; ring
    _ ≤ |x| / 2 ^ 24 := by
        exact div_le_div_of_nonneg_right hlo (by positivity)

/-- The literal `0.0980665f` is within relative error `2 ^ (-24)` of the decimal. -/
theorem literal_error : |(13162263 / 134217728 : ℚ) - 0.0980665| ≤ 0.0980665 / 2 ^ 24 := by
  rw [abs_le]
  constructor <;> norm_num

/-- `ConvertCmH2OtoKPa` with the literal evaluated. -/
theorem ConvertCmH2OtoKPa_eq (c : ℚ) :
    ConvertCmH2OtoKPa c = binary32 (c * (13162263 / 134217728)) := by
  unfold ConvertCmH2OtoKPa
  rw [binary32_literal]

/-- For arguments of magnitude at least `2 ^ (-122)` the result is within relative
error `2 ^ (-22)` of the product with the decimal constant. -/
theorem ConvertCmH2OtoKPa_error (c : ℚ) (h : (2 : ℚ) ^ (-122 : ℤ) ≤ |c|) :
    |ConvertCmH2OtoKPa c - c * 0.0980665| ≤ |c| * 0.0980665 / 2 ^ 22 := by
  have hk : |c * (13162263 / 134217728 : ℚ)| = |c| * (13162263 / 134217728) := by
    rw [abs_mul, abs_of_pos (by norm_num : (0 : ℚ) < 13162263 / 134217728)]
  have hc : 0 ≤ |c| := abs_nonneg c
  have hn : (2 : ℚ) ^ (-126 : ℤ) ≤ |c * (13162263 / 134217728 : ℚ)| := by
    rw [hk]
    calc (2 : ℚ) ^ (-126 : ℤ) = 2 ^ (-122 : ℤ) * (1 / 16) := by
          rw [show (-126 : ℤ) = -122 - 4 by norm_num, zpow_sub₀ (by norm_num)]
          norm_num
      _ ≤ |c| * (1 / 16) := mul_le_mul_of_nonneg_right h (by norm_num)
      _ ≤ |c| * (13162263 / 134217728) := mul_le_mul_of_nonneg_left (by norm_num) hc
  have h1 := binary32_abs_sub_le _ hn
  rw [hk] at h1
  have h2 : |c * (13162263 / 134217728 : ℚ) - c * 0.0980665| ≤ |c| * (0.0980665 / 2 ^ 24) := by
    rw [← mul_sub, abs_mul]
    exact mul_le_mul_of_nonneg_left literal_error hc
  rw [ConvertCmH2OtoKPa_eq]
  calc |binary32 (c * (13162263 / 134217728)) - c * 0.0980665|
      = |(binary32 (c * (13162263 / 134217728)) - c * (13162263 / 134217728))
          + (c * (13162263 / 134217728) - c * 0.0980665)| := by ring_nf
    _ ≤ |binary32 (c * (13162263 / 134217728)) - c * (13162263 / 134217728)|
          + |c * (13162263 / 134217728) - c * 0.0980665| := abs_add _ _
    _ ≤ |c| * (13162263 / 134217728) / 2 ^ 24 + |c| * (0.0980665 / 2 ^ 24) := add_le_add h1 h2
    _ ≤ |c| * 0.0980665 / 2 ^ 22 := by
        have : |c| * (13162263 / 134217728) / 2 ^ 24 + |c| * (0.0980665 / 2 ^ 24)
            = |c| * ((13162263 / 134217728) / 2 ^ 24 + 0.0980665 / 2 ^ 24) := by ring
        rw [this, mul_div_assoc]
        exact mul_le_mul_of_nonneg_left (by norm_num) hc

theorem ConvertCmH2OtoKPa_one : ConvertCmH2OtoKPa 1 = 13162263 / 134217728 := by
  rw [ConvertCmH2OtoKPa_eq, one_mul,
    binary32_of_exponent _ (-4) (by norm_num [abs_of_pos]) (by norm_num [abs_of_pos])
      (by decide),
    roundHalfEven_of_near _ 13162263 (by norm_num) (by norm_num)]
  norm_num

theorem ConvertCmH2OtoKPa_zero : ConvertCmH2OtoKPa 0 = 0 := by
  rw [ConvertCmH2OtoKPa_eq, zero_mul]
  simp only [binary32, if_true]

theorem ConvertCmH2OtoKPa_13_5 : ConvertCmH2OtoKPa 13.5 = 11105659 / 8388608 := by
  rw [ConvertCmH2OtoKPa_eq,
    binary32_of_exponent _ 0 (by norm_num [abs_of_pos]) (by norm_num [abs_of_pos])
      (by decide),
    roundHalfEven_of_near _ 11105659 (by norm_num) (by norm_num)]
  norm_num

/-- C15 (as stated, fails): mapping 1.0 does not yield 0.0980665; the result is
the binary32 value 13162263 / 2^27 of the literal `0.0980665f`. -/
theorem ConvertCmH2OtoKPa_one_ne :
    ConvertCmH2OtoKPa 1 = 13162263 / 134217728 ∧
      ¬ (ConvertCmH2OtoKPa 1 = 1 * 0.0980665) := by
  rw [ConvertCmH2OtoKPa_one]
  refine ⟨rfl, ?_⟩
  norm_num

/-- C15 (amended): `ConvertCmH2OtoKPa` multiplies its argument in single
precision by the constant `0.0980665f`, which is 13162263 / 2^27: for every c
the result is the binary32 rounding of c * 13162263 / 2^27, and for
|c| ≥ 2^-122 it is within relative error 2^-22 of c * 0.0980665; 1.0 maps to
13162263 / 2^27 and 0 maps to 0. -/
theorem ConvertCmH2OtoKPa_binary32 (c : ℚ) :
    binary32 0.0980665 = 13162263 / 134217728 ∧
      ConvertCmH2OtoKPa c = binary32 (c * (13162263 / 134217728)) ∧
      ((2 : ℚ) ^ (-122 : ℤ) ≤ |c| →
        |ConvertCmH2OtoKPa c - c * 0.0980665| ≤ |c| * 0.0980665 / 2 ^ 22) ∧
      ConvertCmH2OtoKPa 1 = 13162263 / 134217728 ∧
      ConvertCmH2OtoKPa 0 = 0 :=
  ⟨binary32_literal, ConvertCmH2OtoKPa_eq c, ConvertCmH2OtoKPa_error c,
    ConvertCmH2OtoKPa_one, ConvertCmH2OtoKPa_zero⟩

theorem ConvertCmH2OtoKPa_binary32_witness :
    (2 : ℚ) ^ (-122 : ℤ) ≤ |(13.5 : ℚ)| ∧
      ConvertCmH2OtoKPa 13.5 = 11105659 / 8388608 ∧
      |ConvertCmH2OtoKPa 13.5 - 13.5 * 0.0980665| ≤ |(13.5 : ℚ)| * 0.0980665 / 2 ^ 22 :=
  have h : (2 : ℚ) ^ (-122 : ℤ) ≤ |(13.5 : ℚ)| := by
    rw [abs_of_pos (by norm_num)]
    calc (2 : ℚ) ^ (-122 : ℤ) ≤ 2 ^ (0 : ℤ) := zpow_le_zpow_right₀ (by norm_num) (by decide)
      _ ≤ 13.5 := by norm_num
  ⟨h, ConvertCmH2OtoKPa_13_5, (ConvertCmH2OtoKPa_binary32 13.5).2.2.1 h⟩

/-! ## Further claims about the acquisition controller -/

/-- C14: `TM7711_Read_Polling` is idempotent: for every `SPI_Comp_Flag` and
every device-ready reading, calling it twice with the same reading leaves the
same state, hence the same `SPI_Comp_Flag` and the same number of transfers
started, as calling it once. -/
theorem TM7711_Read_Polling_idempotent (s : State) (DOUT_STATUS : GPIO_PinState) :
    TM7711_Read_Polling DOUT_STATUS (TM7711_Read_Polling DOUT_STATUS s)
        = TM7711_Read_Polling DOUT_STATUS s ∧
      (TM7711_Read_Polling DOUT_STATUS (TM7711_Read_Polling DOUT_STATUS s)).SPI_Comp_Flag
        = (TM7711_Read_Polling DOUT_STATUS s).SPI_Comp_Flag ∧
      (TM7711_Read_Polling DOUT_STATUS (TM7711_Read_Polling DOUT_STATUS s)).transfers.length
        = (TM7711_Read_Polling DOUT_STATUS s).transfers.length := by
  have e : TM7711_Read_Polling DOUT_STATUS (TM7711_Read_Polling DOUT_STATUS s)
      = TM7711_Read_Polling DOUT_STATUS s := by
    by_cases hc : s.SPI_Comp_Flag = 1 ∧ DOUT_STATUS = GPIO_PinState.GPIO_PIN_RESET
    · have h1 : TM7711_Read_Polling DOUT_STATUS s
          = TM7711_Read_Raw_DMA { s with SPI_Comp_Flag := 0 } := by
        unfold TM7711_Read_Polling
        rw [if_pos hc]
      rw [h1]
      unfold TM7711_Read_Polling
      rw [if_neg]
      intro hflag
      exact absurd hflag.1 (by simp [TM7711_Read_Raw_DMA])
    · have h1 : TM7711_Read_Polling DOUT_STATUS s = s := by
        unfold TM7711_Read_Polling
        rw [if_neg hc]
      rw [h1, h1]
  rw [e]
  exact ⟨rfl, rfl, rfl⟩

/-- C17: `HAL_SPI_TxRxCpltCallback` sets `SPI_Comp_Flag` to 1 when the handle
belongs to the configured SPI instance and leaves it unchanged for any other
handle; in both cases it starts no transfer and leaves `TxData` and `RxData`
as they are. -/
theorem HAL_SPI_TxRxCpltCallback_effect (SPI_INSTANCE : Nat) (hspi : SPI_HandleTypeDef)
    (s : State) :
    (HAL_SPI_TxRxCpltCallback SPI_INSTANCE hspi s).SPI_Comp_Flag
        = (if hspi.Instance = SPI_INSTANCE then 1 else s.SPI_Comp_Flag) ∧
      (HAL_SPI_TxRxCpltCallback SPI_INSTANCE hspi s).transfers = s.transfers ∧
      (HAL_SPI_TxRxCpltCallback SPI_INSTANCE hspi s).TxData = s.TxData ∧
      (HAL_SPI_TxRxCpltCallback SPI_INSTANCE hspi s).RxData = s.RxData := by
  unfold HAL_SPI_TxRxCpltCallback
  by_cases h : hspi.Instance = SPI_INSTANCE
  · rw [if_pos h, if_pos h]
    exact ⟨rfl, rfl, rfl, rfl⟩
  · rw [if_neg h, if_neg h]
    exact ⟨rfl, rfl, rfl, rfl⟩

/-- C16: each of the three operating modes defines `PRELOAD_INIT`, with 25
clock ticks (1-bits) for TM7711_DIFF_10_HZ, 26 for TM7711_TEMP_40_HZ and 27
for TM7711_DIFF_40_HZ; the three frames are pairwise distinct and differ only
in byte 7. -/
theorem PRELOAD_INIT_ticks :
    ∃ f10 t40 f40 : Frame,
      PRELOAD_INIT_for 1 0 0 = some f10 ∧ PRELOAD_INIT_for 0 1 0 = some t40 ∧
      PRELOAD_INIT_for 0 0 1 = some f40 ∧
      tickCount f10 = 25 ∧ tickCount t40 = 26 ∧ tickCount f40 = 27 ∧
      f10 ≠ t40 ∧ t40 ≠ f40 ∧ f10 ≠ f40 ∧
      f10 7 ≠ t40 7 ∧ t40 7 ≠ f40 7 ∧ f10 7 ≠ f40 7 ∧
      ∀ i : Fin 8, i ≠ 7 → f10 i = t40 i ∧ t40 i = f40 i := by
  refine ⟨_, _, _, rfl, rfl, rfl, by decide, by decide, by decide, ?_, ?_, ?_,
    by decide, by decide, by decide, by decide⟩
  · exact fun h => absurd (congrFun h 7) (by decide)
  · exact fun h => absurd (congrFun h 7) (by decide)
  · exact fun h => absurd (congrFun h 7) (by decide)

/-! ## Injectivity and surjectivity of the decoder -/

/-- Two base-16 numbers of six digits that are equal have the same digits. -/
theorem digits_inj (a1 a2 a3 a4 a5 a6 b1 b2 b3 b4 b5 b6 : Nat)
    (ha2 : a2 < 16) (ha3 : a3 < 16) (ha4 : a4 < 16) (ha5 : a5 < 16) (ha6 : a6 < 16)
    (hb2 : b2 < 16) (hb3 : b3 < 16) (hb4 : b4 < 16) (hb5 : b5 < 16) (hb6 : b6 < 16)
    (h : a1 * 16 ^ 5 + a2 * 16 ^ 4 + a3 * 16 ^ 3 + a4 * 16 ^ 2 + a5 * 16 ^ 1 + a6 * 16 ^ 0
      = b1 * 16 ^ 5 + b2 * 16 ^ 4 + b3 * 16 ^ 3 + b4 * 16 ^ 2 + b5 * 16 ^ 1 + b6 * 16 ^ 0) :
    a1 = b1 ∧ a2 = b2 ∧ a3 = b3 ∧ a4 = b4 ∧ a5 = b5 ∧ a6 = b6 := by
  simp only [Nat.reducePow] at h
  omega

/-- Two bytes with the same nibble agree on bits 7, 5, 3 and 1. -/
theorem mask_eq_of_nibbleOf_eq (b c : Fin 256) (h : nibbleOf b.val = nibbleOf c.val) :
    b.val &&& 0xAA = c.val &&& 0xAA := by
  have hb := nibbleOf_mask_inj b ⟨nibbleOf b.val, nibbleOf_lt b⟩ rfl
  have hc := nibbleOf_mask_inj c ⟨nibbleOf b.val, nibbleOf_lt b⟩ h.symm
  rw [hb, hc]

/-- C18: the decoder loses no sample information: two frames with the same raw
reading agree on bits 7, 5, 3, 1 of each of bytes 1 to 6. -/
theorem ConvertSPItoRawReading_injective (f g : Frame)
    (h : ConvertSPItoRawReading f = ConvertSPItoRawReading g) :
    ∀ i : Fin 8, 1 ≤ i.val → i.val ≤ 6 → (f i).val &&& 0xAA = (g i).val &&& 0xAA := by
  rw [ConvertSPItoRawReading_digits, ConvertSPItoRawReading_digits] at h
  obtain ⟨e1, e2, e3, e4, e5, e6⟩ := digits_inj _ _ _ _ _ _ _ _ _ _ _ _
    (nibbleOf_lt (f 2)) (nibbleOf_lt (f 3)) (nibbleOf_lt (f 4)) (nibbleOf_lt (f 5))
    (nibbleOf_lt (f 6)) (nibbleOf_lt (g 2)) (nibbleOf_lt (g 3)) (nibbleOf_lt (g 4))
    (nibbleOf_lt (g 5)) (nibbleOf_lt (g 6)) h
  intro i hlo hhi
  obtain ⟨i, hi⟩ := i
  simp only at hlo hhi
  interval_cases i
  · exact mask_eq_of_nibbleOf_eq _ _ e1
  · exact mask_eq_of_nibbleOf_eq _ _ e2
  · exact mask_eq_of_nibbleOf_eq _ _ e3
  · exact mask_eq_of_nibbleOf_eq _ _ e4
  · exact mask_eq_of_nibbleOf_eq _ _ e5
  · exact mask_eq_of_nibbleOf_eq _ _ e6

theorem ConvertSPItoRawReading_injective_witness :
    ConvertSPItoRawReading (Frame.mk8 0x01 0x82 0x28 0xA0 0x0A 0x00 0xAA 0x02)
        = ConvertSPItoRawReading (Frame.mk8 0xFE 0xC3 0x7D 0xB5 0x4F 0x55 0xEE 0x09) ∧
      ∀ i : Fin 8, 1 ≤ i.val → i.val ≤ 6 →
        ((Frame.mk8 0x01 0x82 0x28 0xA0 0x0A 0x00 0xAA 0x02) i).val &&& 0xAA
          = ((Frame.mk8 0xFE 0xC3 0x7D 0xB5 0x4F 0x55 0xEE 0x09) i).val &&& 0xAA :=
  ⟨by decide, ConvertSPItoRawReading_injective _ _ (by decide)⟩

theorem nibbleOf_spreadNibble : ∀ n : Fin 16, nibbleOf (spreadNibble n.val).val = n.val := by
  decide

/-- Bytes 1 to 6 of `encodeFrame`, with the shift amounts evaluated. -/
theorem encodeFrame_bytes (v : Nat) (b0 b7 : Fin 256) :
    encodeFrame v b0 b7 1 = spreadNibble ((v >>> 20) &&& 0xF) ∧
      encodeFrame v b0 b7 2 = spreadNibble ((v >>> 16) &&& 0xF) ∧
      encodeFrame v b0 b7 3 = spreadNibble ((v >>> 12) &&& 0xF) ∧
      encodeFrame v b0 b7 4 = spreadNibble ((v >>> 8) &&& 0xF) ∧
      encodeFrame v b0 b7 5 = spreadNibble ((v >>> 4) &&& 0xF) ∧
      encodeFrame v b0 b7 6 = spreadNibble ((v >>> 0) &&& 0xF) :=
  ⟨rfl, rfl, rfl, rfl, rfl, rfl⟩

/-- The nibble that `encodeFrame` spreads onto a byte, read back by the code. -/
theorem nibbleOf_spread_shift (v k : Nat) :
    nibbleOf (spreadNibble ((v >>> k) &&& 0xF)).val = v / 2 ^ k % 16 := by
  have e : (v >>> k) &&& 0xF = v / 2 ^ k % 16 := by
    rw [Nat.shiftRight_eq_div_pow]
    exact Nat.and_pow_two_sub_one_eq_mod _ 4
  rw [e]
  exact nibbleOf_spreadNibble ⟨v / 2 ^ k % 16, Nat.mod_lt _ (by decide)⟩

/-- C19: the decoder is onto the 24-bit range: for every v below 2^24 and any
bytes 0 and 7, the frame whose bytes 1 to 6 spread the six nibbles of v onto
bits 7, 5, 3, 1 decodes to v. -/
theorem ConvertSPItoRawReading_encodeFrame (v : Nat) (hv : v < 2 ^ 24) (b0 b7 : Fin 256) :
    ConvertSPItoRawReading (encodeFrame v b0 b7) = v := by
  obtain ⟨e1, e2, e3, e4, e5, e6⟩ := encodeFrame_bytes v b0 b7
  rw [ConvertSPItoRawReading_digits, e1, e2, e3, e4, e5, e6]
  simp only [nibbleOf_spread_shift]
  simp only [Nat.reducePow] at hv ⊢
  omega

theorem ConvertSPItoRawReading_encodeFrame_witness :
    (0x8421F0 : Nat) < 2 ^ 24 ∧
      encodeFrame 0x8421F0 0x3C 0x80 = Frame.mk8 0x3C 0x80 0x20 0x08 0x02 0xAA 0x00 0x80 ∧
      ConvertSPItoRawReading (encodeFrame 0x8421F0 0x3C 0x80) = 0x8421F0 :=
  ⟨by decide, by decide, ConvertSPItoRawReading_encodeFrame 0x8421F0 (by decide) 0x3C 0x80⟩

end TM7711
